import Mathlib

/-
  Shallow embedding of the function-boundary discovery pass
  (src/x64_dbg_dbg/FunctionPass.cpp of the x64dbg repository).

  The pass state after construction is a `PassConfig` (overall analysis
  bounds, resolved module base, decoded exception-directory records).
  Basic blocks are an address-ordered list with a mutable CLAIMED flag
  (`BASIC_BLOCK_FLAG_FUNCTION` in the code); block mutation is threaded
  explicitly.  Debuggee process memory (an external collaborator) is an
  environment of fallible reads.  The parallel shard phase is embedded
  sequentially in shard order: shard candidate lists depend only on the
  immutable block fields, and the CLAIMED mutation is an idempotent
  monotone bit set, so the sequentialisation computes the same candidate
  lists and the same final flag assignment as any interleaving.
-/

namespace FunctionPass

/-- Machine word modulus for the `uint` (duint) arithmetic of the code. -/
def wordMod : Nat := 2 ^ 64

/-- Wrapping `x - 1` on a machine word, as in `func.VirtualEnd - 1`
at the `FunctionAdd` call site (FunctionPass.cpp line 105). -/
def usub1 (x : Nat) : Nat := (x + (wordMod - 1)) % wordMod

/-- A basic block as read by this pass: half-open `[VirtualStart,
VirtualEnd)` address interval, call target, and the three flags the pass
touches (`BASIC_BLOCK_FLAG_CALL`, `BASIC_BLOCK_FLAG_INDIRPTR`,
`BASIC_BLOCK_FLAG_FUNCTION` — the latter is the spec's CLAIMED bit). -/
structure BasicBlock where
  VirtualStart : Nat
  VirtualEnd : Nat
  Target : Nat
  callFlag : Bool
  indirFlag : Bool
  functionFlag : Bool
deriving DecidableEq

instance : Inhabited BasicBlock := ⟨⟨0, 0, 0, false, false, false⟩⟩

/-- `SetFlag(BASIC_BLOCK_FLAG_FUNCTION)` on one block. -/
def setFunctionFlag (b : BasicBlock) : BasicBlock :=
  ⟨b.VirtualStart, b.VirtualEnd, b.Target, b.callFlag, b.indirFlag, true⟩

/-- A `FunctionDef` candidate (FunctionPass.h): virtual address pair plus
block index range filled in by boundary resolution. -/
structure FunctionDef where
  VirtualStart : Nat
  VirtualEnd : Nat
  BBlockStart : Nat
  BBlockEnd : Nat
deriving DecidableEq

/-- One decoded `RUNTIME_FUNCTION` record of the exception directory:
begin/end offsets relative to the module base.  The raw byte buffer
`m_FunctionInfo` (read record by record at FunctionPass.cpp lines
244-252) is embedded as the list of records it holds; the empty list
models a null or empty buffer. -/
structure RuntimeFunction where
  BeginAddress : Nat
  EndAddress : Nat
deriving DecidableEq

/-- Post-construction state of the pass: overall analysis bounds
(`m_VirtualStart`/`m_VirtualEnd` of the base class), `m_ModuleStart`,
and the decoded metadata table `m_FunctionInfo`. -/
structure PassConfig where
  virtualStart : Nat
  virtualEnd : Nat
  moduleStart : Nat
  functionInfo : List RuntimeFunction

/-- Debuggee process memory, an external collaborator: `memRead` is
`MemRead` of one pointer-sized cell (fallible), `memValid` is
`MemIsValidReadPtr`. -/
structure Env where
  memRead : Nat → Option Nat
  memValid : Nat → Bool

/-- Modelled from the spec: `AnalysisPass::ValidateAddress` (the
AnalysisPass base class is not in src).  Per the spec, the destination
"must additionally lie within the *overall* analysis bounds", i.e. the
analyzed range `[virtualStart, virtualEnd)`. -/
def ValidateAddress (cfg : PassConfig) (a : Nat) : Bool :=
  decide (cfg.virtualStart ≤ a ∧ a < cfg.virtualEnd)

/-- Modelled from the spec: `AnalysisPass::FindBBlockInRange` (not in
src), the "basic-block range lookup: address → containing block, or
not-found", with blocks as half-open intervals per the spec's data
model.  Returns the block's index, which is what the pointer arithmetic
at FunctionPass.cpp lines 212-213 recovers from the returned pointer. -/
def findBlockIdx (blocks : List BasicBlock) (a : Nat) : Option Nat :=
  match blocks with
  | [] => none
  | b :: rest =>
    if b.VirtualStart ≤ a ∧ a < b.VirtualEnd then some 0
    else (findBlockIdx rest a).map (· + 1)

/-- The loop `for(uint i = Function->BBlockStart; i < Function->BBlockEnd;
i++) m_MainBlocks[i].SetFlag(BASIC_BLOCK_FLAG_FUNCTION)` (lines 216-217),
as an indexed map starting at offset `k`. -/
def setClaimedFrom (s e : Nat) : Nat → List BasicBlock → List BasicBlock
  | _, [] => []
  | k, b :: rest =>
    (if s ≤ k ∧ k < e then setFunctionFlag b else b) :: setClaimedFrom s e (k + 1) rest

/-- `ResolveKnownFunctionEnd` (lines 199-220): look up the blocks holding
the candidate's start and end addresses; on failure report `none` (the
candidate stays unresolved); on success fill in the index range and mark
every block in `[BBlockStart, BBlockEnd)` CLAIMED. -/
def resolveKnownFunctionEnd (blocks : List BasicBlock) (f : FunctionDef) :
    Option (FunctionDef × List BasicBlock) :=
  match findBlockIdx blocks f.VirtualStart, findBlockIdx blocks f.VirtualEnd with
  | some s, some e =>
    some (⟨f.VirtualStart, f.VirtualEnd, s, e⟩, setClaimedFrom s e 0 blocks)
  | _, _ => none

/-- `FunctionPass::FindFunctionWorker` (lines 196-236): for each candidate
whose `VirtualEnd` is already supplied (nonzero), attempt resolution; a
resolution miss leaves the candidate in the list unchanged; `VirtualEnd
== 0` candidates pass through (the else branch is unimplemented). -/
def findFunctionWorker : List FunctionDef → List BasicBlock →
    List FunctionDef × List BasicBlock
  | [], blocks => ([], blocks)
  | f :: rest, blocks =>
    if f.VirtualEnd ≠ 0 then
      match resolveKnownFunctionEnd blocks f with
      | some fb =>
        let r := findFunctionWorker rest fb.2
        (fb.1 :: r.1, r.2)
      | none =>
        let r := findFunctionWorker rest blocks
        (f :: r.1, r.2)
    else
      let r := findFunctionWorker rest blocks
      (f :: r.1, r.2)

/-- `FunctionPass::FindFunctionWorkerPrepass` (lines 170-194).  The shard
window is read from the block at index `start` and the block at index
`stop - 1` (the code dereferences both unconditionally; the embedding
totalises the two accesses with a default — claim C9 tracks when the
real accesses are in bounds).  A record is kept iff its module-relative
begin address lies in `[minFunc, maxFunc)`; the end address is not
examined. -/
def findFunctionWorkerPrepass (cfg : PassConfig) (blocks : List BasicBlock)
    (start stop : Nat) : List FunctionDef :=
  let minFunc := ((blocks.get? start).getD default).VirtualStart
  let maxFunc := ((blocks.get? (stop - 1)).getD default).VirtualEnd
  cfg.functionInfo.filterMap fun r =>
    let funcAddr := (cfg.moduleStart + r.BeginAddress) % wordMod
    let funcEnd := (cfg.moduleStart + r.EndAddress) % wordMod
    if minFunc ≤ funcAddr ∧ funcAddr < maxFunc then
      some ⟨funcAddr, funcEnd, 0, 0⟩
    else none

/-- One iteration of the control-flow scan loop (lines 124-155) on one
block, paired with the list of addresses dereferenced by `MemRead` in
that iteration (the indirect-pointer read at line 134 is the only read
site). -/
def scanBlock (cfg : PassConfig) (env : Env) (b : BasicBlock) :
    Option FunctionDef × List Nat :=
  if b.callFlag then
    if b.indirFlag then
      match env.memRead b.Target with
      | none => (none, [b.Target])
      | some destination =>
        if env.memValid destination then
          if ValidateAddress cfg destination then
            (some ⟨destination, destination, 0, 0⟩, [b.Target])
          else (none, [b.Target])
        else (none, [b.Target])
    else
      if ValidateAddress cfg b.Target then
        (some ⟨b.Target, b.Target, 0, 0⟩, [])
      else (none, [])
  else (none, [])

/-- The candidates emitted by the control-flow scan over a list of
blocks (step 2 of `AnalysisWorker`). -/
def controlFlowScan (cfg : PassConfig) (env : Env) (bs : List BasicBlock) :
    List FunctionDef :=
  bs.filterMap fun b => (scanBlock cfg env b).1

/-- The sub-list of blocks a shard iterates over: indices
`[start, stop)`. -/
def shardBlocks (blocks : List BasicBlock) (start stop : Nat) : List BasicBlock :=
  (blocks.drop start).take (stop - start)

/-- Modelled from the spec: the `FunctionDef` comparison `operator<`
(FunctionPass.h is not in src), per the spec's "sort ascending by
(VirtualStart, VirtualEnd)": lexicographic on the address pair. -/
def defLe (a b : FunctionDef) : Bool :=
  decide (a.VirtualStart < b.VirtualStart ∨
    (a.VirtualStart = b.VirtualStart ∧ a.VirtualEnd ≤ b.VirtualEnd))

/-- Modelled from the spec: the `FunctionDef` equality used by
`std::unique` (FunctionPass.h is not in src), per the spec's "remove
exact duplicates" with "ordering/equality for dedupe: primarily
VirtualStart, then VirtualEnd": equality of the address pair. -/
def defEq (a b : FunctionDef) : Bool :=
  decide (a.VirtualStart = b.VirtualStart ∧ a.VirtualEnd = b.VirtualEnd)

/-- Ordered insertion used by `sortFD`. -/
def insertFD (a : FunctionDef) : List FunctionDef → List FunctionDef
  | [] => [a]
  | b :: rest => if defLe a b then a :: b :: rest else b :: insertFD a rest

/-- `std::sort` on candidates (lines 99 and 158), embedded as insertion
sort with the `defLe` order (same sorted result). -/
def sortFD : List FunctionDef → List FunctionDef
  | [] => []
  | a :: rest => insertFD a (sortFD rest)

/-- Tail of `std::unique`: drop every element `defEq`-equal to the last
kept element `prev`. -/
def dedupFDAux (prev : FunctionDef) : List FunctionDef → List FunctionDef
  | [] => []
  | b :: rest =>
    if defEq prev b then dedupFDAux prev rest else b :: dedupFDAux b rest

/-- `erase(std::unique(...))` on a sorted candidate list (lines 100 and
159). -/
def dedupFD : List FunctionDef → List FunctionDef
  | [] => []
  | a :: rest => a :: dedupFDAux a rest

/-- `FunctionPass::AnalysisWorker` (lines 113-168) on the shard
`[start, stop)`: metadata prepass, control-flow scan, local sort+dedupe,
then boundary resolution; returns the shard's candidate list and the
updated block flags. -/
def analysisWorker (cfg : PassConfig) (env : Env) (start stop : Nat)
    (blocks : List BasicBlock) : List FunctionDef × List BasicBlock :=
  let cands := findFunctionWorkerPrepass cfg blocks start stop ++
    controlFlowScan cfg env (shardBlocks blocks start stop)
  findFunctionWorker (dedupFD (sortFD cands)) blocks

/-- `THREAD_WORK = ceil(TOTAL / # THREADS)` (line 74). -/
def workAmount (N T : Nat) : Nat := (N + (T - 1)) / T

/-- `threadWorkStart = workAmount * i` (line 81). -/
def shardStart (w i : Nat) : Nat := w * i

/-- `threadWorkStop = min(threadWorkStart + workAmount, N)` (line 82). -/
def shardStop (w N i : Nat) : Nat := min (shardStart w i + w) N

/-- Shard `i` holds at least one block index. -/
def shardNonempty (w N i : Nat) : Prop := shardStart w i < shardStop w N i

/-- The two block indices the prepass dereferences for shard `i` —
`Start` and `End - 1` (lines 172-173) — are both within the `N`-element
block sequence. -/
def prepassAccessInBounds (w N i : Nat) : Prop :=
  shardStart w i < N ∧ shardStop w N i - 1 < N

/-- The shard loop of `Analyse` (lines 79-90), embedded sequentially in
shard order `i, i+1, ...` for `c` remaining shards, threading the block
flags and concatenating the per-shard candidate lists in shard order
(the merge loop of lines 95-96). -/
def runShards (cfg : PassConfig) (env : Env) (w N : Nat) :
    Nat → Nat → List BasicBlock → List FunctionDef × List BasicBlock
  | _, 0, blocks => ([], blocks)
  | i, c + 1, blocks =>
    let res := analysisWorker cfg env (shardStart w i) (shardStop w N i) blocks
    let rest := runShards cfg env w N (i + 1) c res.2
    (res.1 ++ rest.1, rest.2)

/-- Result of one discovery run: the `bool` return of `Analyse`, the
merged deduplicated candidate list, the entries committed to the global
function table as `(start, inclusiveEnd, isAutoDiscovered)` triples
(`FunctionAdd(func.VirtualStart, func.VirtualEnd - 1, true)`, line 105,
after `FunctionClear()`), and the final block flags. -/
structure AnalyseResult where
  success : Bool
  funcs : List FunctionDef
  committed : List (Nat × Nat × Bool)
  blocks : List BasicBlock

/-- `FunctionPass::Analyse` (lines 71-111).  `hint` is the external
`IdealThreadCount()` concurrency hint, a "platform concurrency hint,
minimum 1" per the spec, hence thread count `max 1 hint`. -/
def analyse (cfg : PassConfig) (env : Env) (hint : Nat)
    (blocks0 : List BasicBlock) : AnalyseResult :=
  let T := max 1 hint
  let w := workAmount blocks0.length T
  let r := runShards cfg env w blocks0.length 0 T blocks0
  let funcs := dedupFD (sortFD r.1)
  ⟨true, funcs, funcs.map (fun f => (f.VirtualStart, usub1 f.VirtualEnd, true)), r.2⟩

/-- Block index `i` currently carries the CLAIMED
(`BASIC_BLOCK_FLAG_FUNCTION`) flag. -/
def claimedAt (l : List BasicBlock) (i : Nat) : Prop :=
  ∃ b, l.get? i = some b ∧ b.functionFlag = true

/-- An environment in which every memory read fails and no pointer is
readable. -/
def envNone : Env := ⟨fun _ => none, fun _ => false⟩

/-- The spec's end-to-end example 1: pass over `[0x1000, 0x2020)`,
module base 0, one metadata record `{begin 0x2000, end 0x2020}`. -/
def cfgEx1 : PassConfig := ⟨0x1000, 0x2020, 0, [⟨0x2000, 0x2020⟩]⟩

/-- Example 1 blocks: `B1 [0x1000,0x1010)` with a direct CALL to
`0x2000`, `B2 [0x2000,0x2020)` unflagged. -/
def blocksEx1 : List BasicBlock :=
  [⟨0x1000, 0x1010, 0x2000, true, false, false⟩,
   ⟨0x2000, 0x2020, 0, false, false, false⟩]

/-- The spec's end-to-end example 2: pass over `[0x1000, 0x5000)`, no
metadata. -/
def cfgEx2 : PassConfig := ⟨0x1000, 0x5000, 0, []⟩

/-- Example 2 memory: address `0x3000` holds the value `0x4000`, which
is readable. -/
def envEx2 : Env := ⟨fun a => if a = 0x3000 then some 0x4000 else none, fun a => a == 0x4000⟩

/-- Example 2 block: `B1 [0x1000,0x1010)` flagged CALL and
INDIRECT_POINTER with `Target = 0x3000`. -/
def bEx2 : BasicBlock := ⟨0x1000, 0x1010, 0x3000, true, true, false⟩

/-- Example 2 block list. -/
def blocksEx2 : List BasicBlock := [bEx2]

/-- The candidate produced in example 2. -/
def fEx2 : FunctionDef := ⟨0x4000, 0x4000, 0, 0⟩

/-- Two-shard input for the dedup claim: pass over `[0x1000, 0x4000)`,
module base 0, metadata record `{begin 0x3000, end 0x3040}`. -/
def cfgEx3 : PassConfig := ⟨0x1000, 0x4000, 0, [⟨0x3000, 0x3040⟩]⟩

/-- Two-shard blocks: `B1 [0x1000,0x1010)` with a direct CALL to
`0x3000` (seen by shard 0), `B2 [0x3000,0x3040)` unflagged (shard 1's
window contains the metadata record's begin address).  With thread
count 2 the function at `0x3000` is discoverable by shard 0 via the
call edge and by shard 1 via the metadata record. -/
def blocksEx3 : List BasicBlock :=
  [⟨0x1000, 0x1010, 0x3000, true, false, false⟩,
   ⟨0x3000, 0x3040, 0, false, false, false⟩]

/-- Bounds for the out-of-bounds-end claim: pass over
`[0x1000, 0x1010)`, module base 0, one record whose begin `0x1008` is
inside the shard window but whose end `0x999000` is far outside both
the shard and the overall bounds. -/
def cfgEx10 : PassConfig := ⟨0x1000, 0x1010, 0, [⟨0x1008, 0x999000⟩]⟩

/-- Single block covering the analysed range of the
out-of-bounds-end claim. -/
def blocksEx10 : List BasicBlock := [⟨0x1000, 0x1010, 0, false, false, false⟩]

/-- Input for the CLAIMED-monotonicity witness: one block that already
carries the flag. -/
def blocksEx7 : List BasicBlock := [⟨0, 0x10, 0, false, false, true⟩]

/-- Trivial pass bounds for the monotonicity witness. -/
def cfgEx7 : PassConfig := ⟨0, 0x10, 0, []⟩

/-! Helper lemmas about the candidate order and deduplication. -/

theorem defLe_trans {a b c : FunctionDef} (h1 : defLe a b = true)
    (h2 : defLe b c = true) : defLe a c = true := by
  simp only [defLe, decide_eq_true_eq] at h1 h2 ⊢
  omega

theorem defLe_total (a b : FunctionDef) : defLe a b = true ∨ defLe b a = true := by
  simp only [defLe, decide_eq_true_eq]
  omega

theorem defLe_antisymm {a b : FunctionDef} (h1 : defLe a b = true)
    (h2 : defLe b a = true) : defEq a b = true := by
  simp only [defLe, decide_eq_true_eq] at h1 h2
  simp only [defEq, decide_eq_true_eq]
  omega

theorem defEq_le_rev {a b : FunctionDef} (h : defEq a b = true) : defLe b a = true := by
  simp only [defEq, decide_eq_true_eq] at h
  simp only [defLe, decide_eq_true_eq]
  omega

theorem mem_insertFD {x a : FunctionDef} : ∀ {l : List FunctionDef},
    x ∈ insertFD a l → x = a ∨ x ∈ l := by
  intro l
  induction l with
  | nil => simp [insertFD]
  | cons b rest ih =>
    by_cases hle : defLe a b = true
    · simp only [insertFD, hle, if_true, List.mem_cons]
      tauto
    · rw [Bool.not_eq_true] at hle
      simp only [insertFD, hle, Bool.false_eq_true, if_false, List.mem_cons]
      intro h
      rcases h with h | h
      · right; exact Or.inl h
      · rcases ih h with h1 | h1
        · left; exact h1
        · right; exact Or.inr h1

theorem pairwise_insertFD {a : FunctionDef} : ∀ {l : List FunctionDef},
    l.Pairwise (fun x y => defLe x y = true) →
    (insertFD a l).Pairwise (fun x y => defLe x y = true) := by
  intro l
  induction l with
  | nil =>
    intro _
    simp [insertFD]
  | cons b rest ih =>
    intro h
    rw [List.pairwise_cons] at h
    obtain ⟨hb, hrest⟩ := h
    by_cases hle : defLe a b = true
    · simp only [insertFD, hle, if_true]
      rw [List.pairwise_cons]
      refine ⟨?_, ?_⟩
      · intro x hx
        rcases List.mem_cons.mp hx with rfl | hx2
        · exact hle
        · exact defLe_trans hle (hb x hx2)
      · rw [List.pairwise_cons]
        exact ⟨hb, hrest⟩
    · have hba : defLe b a = true := (defLe_total a b).resolve_left hle
      rw [Bool.not_eq_true] at hle
      simp only [insertFD, hle, Bool.false_eq_true, if_false]
      rw [List.pairwise_cons]
      refine ⟨?_, ih hrest⟩
      intro x hx
      rcases mem_insertFD hx with rfl | hx2
      · exact hba
      · exact hb x hx2

theorem pairwise_sortFD : ∀ (l : List FunctionDef),
    (sortFD l).Pairwise (fun x y => defLe x y = true) := by
  intro l
  induction l with
  | nil => simp [sortFD]
  | cons a rest ih => exact pairwise_insertFD ih

theorem mem_dedupFDAux {x : FunctionDef} : ∀ {l : List FunctionDef} {p : FunctionDef},
    x ∈ dedupFDAux p l → x ∈ l := by
  intro l
  induction l with
  | nil => intro p h; exact absurd h (by simp [dedupFDAux])
  | cons b rest ih =>
    intro p h
    by_cases heq : defEq p b = true
    · simp only [dedupFDAux, heq, if_true] at h
      exact List.mem_cons.mpr (Or.inr (ih h))
    · rw [Bool.not_eq_true] at heq
      simp only [dedupFDAux, heq, Bool.false_eq_true, if_false, List.mem_cons] at h
      rcases h with h | h
      · exact List.mem_cons.mpr (Or.inl h)
      · exact List.mem_cons.mpr (Or.inr (ih h))

theorem pairwise_dedupFDAux : ∀ {l : List FunctionDef} (prev : FunctionDef),
    (prev :: l).Pairwise (fun x y => defLe x y = true) →
    (prev :: dedupFDAux prev l).Pairwise (fun x y => defEq x y = false) := by
  intro l
  induction l with
  | nil =>
    intro prev _
    simp [dedupFDAux]
  | cons b rest ih =>
    intro prev h
    rw [List.pairwise_cons] at h
    obtain ⟨hprev, hbr⟩ := h
    by_cases heq : defEq prev b = true
    · simp only [dedupFDAux, heq, if_true]
      apply ih
      rw [List.pairwise_cons]
      rw [List.pairwise_cons] at hbr
      exact ⟨fun x hx => hprev x (List.mem_cons.mpr (Or.inr hx)), hbr.2⟩
    · rw [Bool.not_eq_true] at heq
      simp only [dedupFDAux, heq, Bool.false_eq_true, if_false]
      have hrec := ih b hbr
      rw [List.pairwise_cons] at hbr
      obtain ⟨hbrest, _⟩ := hbr
      rw [List.pairwise_cons]
      refine ⟨?_, hrec⟩
      intro x hx
      rcases List.mem_cons.mp hx with rfl | hx2
      · exact heq
      · have hxr : x ∈ rest := mem_dedupFDAux hx2
        by_contra hcon
        rw [Bool.not_eq_false] at hcon
        have h1 : defLe x prev = true := defEq_le_rev hcon
        have h2 : defLe b x = true := hbrest x hxr
        have h3 : defLe b prev = true := defLe_trans h2 h1
        have h4 : defLe prev b = true := hprev b (List.mem_cons.mpr (Or.inl rfl))
        have h5 : defEq prev b = true := defLe_antisymm h4 h3
        rw [heq] at h5
        exact absurd h5 (by simp)

theorem pairwise_dedup_sort (l : List FunctionDef) :
    (dedupFD (sortFD l)).Pairwise (fun x y => defEq x y = false) := by
  have hs := pairwise_sortFD l
  cases h : sortFD l with
  | nil => simp [dedupFD]
  | cons a rest =>
    rw [h] at hs
    simp only [dedupFD]
    exact pairwise_dedupFDAux a hs

/-! Helper lemmas about the control-flow scan. -/

theorem scanBlock_fst_some {cfg : PassConfig} {env : Env} {b : BasicBlock}
    {f : FunctionDef} (h : (scanBlock cfg env b).1 = some f) :
    ValidateAddress cfg f.VirtualStart = true ∧ f.VirtualEnd = f.VirtualStart ∧
    f.BBlockStart = 0 ∧ f.BBlockEnd = 0 := by
  unfold scanBlock at h
  by_cases hc : b.callFlag = true
  · by_cases hi : b.indirFlag = true
    · simp only [hc, hi, if_true] at h
      cases hr : env.memRead b.Target with
      | none => rw [hr] at h; simp at h
      | some v =>
        rw [hr] at h
        by_cases hv : env.memValid v = true
        · simp only [hv, if_true] at h
          by_cases hva : ValidateAddress cfg v = true
          · simp only [hva, if_true] at h
            simp only [Option.some.injEq] at h
            subst h
            exact ⟨hva, rfl, rfl, rfl⟩
          · rw [Bool.not_eq_true] at hva
            simp [hva] at h
        · rw [Bool.not_eq_true] at hv
          simp [hv] at h
    · rw [Bool.not_eq_true] at hi
      simp only [hc, hi, if_true, Bool.false_eq_true, if_false] at h
      by_cases hva : ValidateAddress cfg b.Target = true
      · simp only [hva, if_true, Option.some.injEq] at h
        subst h
        exact ⟨hva, rfl, rfl, rfl⟩
      · rw [Bool.not_eq_true] at hva
        simp [hva] at h
  · rw [Bool.not_eq_true] at hc
    simp [hc] at h

/-! Helper lemmas for CLAIMED-flag monotonicity. -/

theorem claimedAt_setClaimedFrom (s e : Nat) :
    ∀ (l : List BasicBlock) (k i : Nat), claimedAt l i →
      claimedAt (setClaimedFrom s e k l) i := by
  intro l
  induction l with
  | nil => intro k i h; exact h
  | cons b rest ih =>
    intro k i h
    obtain ⟨bb, hget, hflag⟩ := h
    cases i with
    | zero =>
      rw [List.get?_cons_zero] at hget
      injection hget with hbb
      subst hbb
      refine ⟨if s ≤ k ∧ k < e then setFunctionFlag b else b, rfl, ?_⟩
      split
      · rfl
      · exact hflag
    | succ n =>
      rw [List.get?_cons_succ] at hget
      obtain ⟨bb2, h2, h3⟩ := ih (k + 1) n ⟨bb, hget, hflag⟩
      exact ⟨bb2, h2, h3⟩

theorem claimedAt_resolve {blocks : List BasicBlock} {f : FunctionDef}
    {fb : FunctionDef × List BasicBlock}
    (h : resolveKnownFunctionEnd blocks f = some fb) (i : Nat)
    (hc : claimedAt blocks i) : claimedAt fb.2 i := by
  unfold resolveKnownFunctionEnd at h
  split at h
  · injection h with h2
    subst h2
    exact claimedAt_setClaimedFrom _ _ blocks 0 i hc
  · cases h

theorem claimedAt_findFunctionWorker : ∀ (fs : List FunctionDef)
    (blocks : List BasicBlock) (i : Nat), claimedAt blocks i →
    claimedAt (findFunctionWorker fs blocks).2 i := by
  intro fs
  induction fs with
  | nil => intro blocks i h; exact h
  | cons f rest ih =>
    intro blocks i h
    by_cases hv : f.VirtualEnd ≠ 0
    · cases hr : resolveKnownFunctionEnd blocks f with
      | some fb =>
        have heq : (findFunctionWorker (f :: rest) blocks).2 =
            (findFunctionWorker rest fb.2).2 := by
          simp [findFunctionWorker, hv, hr]
        rw [heq]
        exact ih fb.2 i (claimedAt_resolve hr i h)
      | none =>
        have heq : (findFunctionWorker (f :: rest) blocks).2 =
            (findFunctionWorker rest blocks).2 := by
          simp [findFunctionWorker, hv, hr]
        rw [heq]
        exact ih blocks i h
    · have heq : (findFunctionWorker (f :: rest) blocks).2 =
          (findFunctionWorker rest blocks).2 := by
        simp [findFunctionWorker, hv]
      rw [heq]
      exact ih blocks i h

theorem claimedAt_analysisWorker (cfg : PassConfig) (env : Env) (s t : Nat)
    (blocks : List BasicBlock) (i : Nat) (h : claimedAt blocks i) :
    claimedAt (analysisWorker cfg env s t blocks).2 i :=
  claimedAt_findFunctionWorker _ blocks i h

theorem claimedAt_runShards (cfg : PassConfig) (env : Env) (w N : Nat) :
    ∀ (c i : Nat) (blocks : List BasicBlock) (j : Nat), claimedAt blocks j →
      claimedAt (runShards cfg env w N i c blocks).2 j := by
  intro c
  induction c with
  | zero => intro i blocks j h; exact h
  | succ c ih =>
    intro i blocks j h
    have heq : (runShards cfg env w N i (c + 1) blocks).2 =
        (runShards cfg env w N (i + 1) c
          (analysisWorker cfg env (shardStart w i) (shardStop w N i) blocks).2).2 := rfl
    rw [heq]
    exact ih (i + 1) _ j (claimedAt_analysisWorker cfg env _ _ blocks j h)

/-! The claims. -/

/-- C1 (counterexample): on the spec's own example-2 input — a
CALL+INDIRECT block with `Target = 0x3000`, memory holding the readable
in-bounds value `0x4000` at `0x3000` — the control-flow scan emits one
candidate, and its `VirtualEnd` is `0x4000`, not `0`: the code at
FunctionPass.cpp line 150 stores the destination, so the claim that
surviving destinations become candidates with `VirtualEnd = 0` is
false. -/
theorem C1_counterexample :
    controlFlowScan cfgEx2 envEx2 blocksEx2 = [fEx2] ∧
    ¬ (∀ f ∈ controlFlowScan cfgEx2 envEx2 blocksEx2, f.VirtualEnd = 0) := by
  decide

/-- C1 (amended): every candidate appended by the control-flow scan has
`VirtualEnd` equal to its `VirtualStart` (both are the resolved
destination) and zeroed block indices; since the destination is the
candidate's start, boundary resolution treats any candidate with a
nonzero destination as having a known end instead of passing over it. -/
theorem C1_scan_candidate_end_equals_destination (cfg : PassConfig) (env : Env)
    (b : BasicBlock) (f : FunctionDef) (h : (scanBlock cfg env b).1 = some f) :
    f.VirtualEnd = f.VirtualStart ∧ f.BBlockStart = 0 ∧ f.BBlockEnd = 0 :=
  (scanBlock_fst_some h).2

/-- Witness for C1: the amended statement applied to the example-2
block, whose scan emits the candidate `(0x4000, 0x4000, 0, 0)`. -/
theorem C1_witness :
    (scanBlock cfgEx2 envEx2 bEx2).1 = some fEx2 ∧
    (fEx2.VirtualEnd = fEx2.VirtualStart ∧ fEx2.BBlockStart = 0 ∧ fEx2.BBlockEnd = 0) :=
  ⟨by decide, C1_scan_candidate_end_equals_destination cfgEx2 envEx2 bEx2 fEx2 (by decide)⟩

/-- C2 (counterexample): on the spec's example-1 input the run does not
commit exactly the single function `[0x2000, 0x201F]` with block B2
CLAIMED: the call-edge candidate `(0x2000, 0x2000)` (its `VirtualEnd`
is the destination, not 0) survives dedupe next to the metadata
candidate `(0x2000, 0x2020)`, and no block flag is ever set. -/
theorem C2_counterexample :
    ¬ ((analyse cfgEx1 envNone 1 blocksEx1).committed = [(0x2000, 0x201F, true)] ∧
      ((analyse cfgEx1 envNone 1 blocksEx1).blocks.get? 1).map BasicBlock.functionFlag =
        some true) := by
  decide

/-- C2 (amended): on the example-1 input discovery commits exactly two
functions, the degenerate `[0x2000, 0x1FFF]` from the call edge and
`[0x2000, 0x201F]` from the metadata record, both tagged
auto-discovered, and the block flags are unchanged — in particular B2
does not end the run CLAIMED (the metadata candidate's end `0x2020`
lies in no half-open block, so its resolution misses; the call
candidate resolves to the empty index range `[1, 1)`). -/
theorem C2_example1_commits_two_functions :
    (analyse cfgEx1 envNone 1 blocksEx1).committed =
      [(0x2000, 0x1FFF, true), (0x2000, 0x201F, true)] ∧
    (analyse cfgEx1 envNone 1 blocksEx1).blocks = blocksEx1 := by
  decide

/-- C3 (counterexample): with two shards — shard 0 holding a block with
a direct call to `0x3000`, shard 1 holding the block whose window
contains the metadata record `{begin 0x3000, end 0x3040}` — the merged
deduplicated list contains the function starting at `0x3000` twice,
not once: the two routes produce the distinct pairs `(0x3000, 0x3000)`
and `(0x3000, 0x3040)`, which are not exact duplicates. -/
theorem C3_counterexample :
    ¬ (((analyse cfgEx3 envNone 2 blocksEx3).funcs.countP
        (fun f => f.VirtualStart == 0x3000)) = 1) ∧
    ((analyse cfgEx3 envNone 2 blocksEx3).funcs.countP
        (fun f => f.VirtualStart == 0x3000)) = 2 := by
  decide

/-- C3 (amended): the merged, sorted, duplicate-erased list committed by
the orchestrator contains each exact `(VirtualStart, VirtualEnd)`
candidate at most once — duplicate-freedom holds per address pair. A
function discoverable via metadata in one shard and via a call edge in
another yields two distinct pairs (the call route's end is the
destination itself), so it can appear once per route. -/
theorem C3_merged_list_has_no_duplicate_pairs (cfg : PassConfig) (env : Env)
    (hint : Nat) (blocks : List BasicBlock) :
    ((analyse cfg env hint blocks).funcs).Pairwise (fun a b => defEq a b = false) :=
  pairwise_dedup_sort _

/-- C4: for `N ≥ 1` blocks and thread count `T ∈ [1, N]`, the shard
decomposition `[i*ceil(N/T), min((i+1)*ceil(N/T), N))` of
FunctionPass.cpp lines 74-82 assigns every block index `j < N` to
exactly one shard `i < T`. -/
theorem C4_shard_partition (N T : Nat) (hT : 1 ≤ T) (hTN : T ≤ N) (j : Nat)
    (hj : j < N) :
    ∃! i, i < T ∧ shardStart (workAmount N T) i ≤ j ∧
      j < shardStop (workAmount N T) N i := by
  have hN : 1 ≤ N := le_trans hT hTN
  have hw : 1 ≤ workAmount N T := by
    unfold workAmount
    rw [Nat.one_le_div_iff (by omega)]
    omega
  have hNT : N ≤ T * workAmount N T := by
    have h1 := Nat.div_add_mod (N + (T - 1)) T
    have h2 : (N + (T - 1)) % T < T := Nat.mod_lt _ (by omega)
    unfold workAmount
    omega
  refine ⟨j / workAmount N T, ⟨?_, ?_, ?_⟩, ?_⟩
  · rw [Nat.div_lt_iff_lt_mul (by omega : 0 < workAmount N T)]
    omega
  · show workAmount N T * (j / workAmount N T) ≤ j
    exact Nat.mul_div_le j (workAmount N T)
  · show j < shardStop (workAmount N T) N (j / workAmount N T)
    simp only [shardStop, shardStart]
    have h1 := Nat.div_add_mod j (workAmount N T)
    have h2 : j % workAmount N T < workAmount N T := Nat.mod_lt _ (by omega)
    omega
  · rintro i' ⟨hi'T, hlo, hhi⟩
    simp only [shardStart] at hlo
    simp only [shardStop, shardStart] at hhi
    have hlo2 : i' * workAmount N T ≤ j := by
      rw [Nat.mul_comm]
      exact hlo
    have hhi2 : j < (i' + 1) * workAmount N T := by
      rw [Nat.add_mul, Nat.one_mul, Nat.mul_comm i' (workAmount N T)]
      omega
    exact (Nat.div_eq_of_lt_le hlo2 hhi2).symm

/-- Witness for C4: with 5 blocks and 2 threads, index 3 lies in
exactly one shard. -/
theorem C4_witness :
    1 ≤ 2 ∧ 2 ≤ 5 ∧ 3 < 5 ∧
    (∃! i, i < 2 ∧ shardStart (workAmount 5 2) i ≤ 3 ∧
      3 < shardStop (workAmount 5 2) 5 i) :=
  ⟨by decide, by decide, by decide,
   C4_shard_partition 5 2 (by decide) (by decide) 3 (by decide)⟩

/-- C5: for a CALL block also flagged indirect, one scan iteration
performs exactly one memory dereference, of `Target`; a failed read, or
a read value that is not a valid readable pointer, emits no candidate;
and a block whose iteration emits nothing can be dropped from the scan
without changing any other emitted candidate. -/
theorem C5_indirect_single_dereference (cfg : PassConfig) (env : Env)
    (b : BasicBlock) (hc : b.callFlag = true) (hi : b.indirFlag = true) :
    (scanBlock cfg env b).2 = [b.Target] ∧
    (env.memRead b.Target = none → (scanBlock cfg env b).1 = none) ∧
    (∀ v, env.memRead b.Target = some v → env.memValid v = false →
      (scanBlock cfg env b).1 = none) ∧
    ((scanBlock cfg env b).1 = none → ∀ pre post : List BasicBlock,
      controlFlowScan cfg env (pre ++ b :: post) =
        controlFlowScan cfg env (pre ++ post)) := by
  refine ⟨?_, ?_, ?_, ?_⟩
  · cases hr : env.memRead b.Target with
    | none => simp [scanBlock, hc, hi, hr]
    | some v =>
      by_cases hv : env.memValid v = true
      · by_cases hva : ValidateAddress cfg v = true
        · simp [scanBlock, hc, hi, hr, hv, hva]
        · rw [Bool.not_eq_true] at hva
          simp [scanBlock, hc, hi, hr, hv, hva]
      · rw [Bool.not_eq_true] at hv
        simp [scanBlock, hc, hi, hr, hv]
  · intro h
    simp [scanBlock, hc, hi, h]
  · intro v hv hval
    simp [scanBlock, hc, hi, hv, hval]
  · intro h pre post
    unfold controlFlowScan
    rw [List.filterMap_append, List.filterMap_append]
    congr 1
    simp only [List.filterMap_cons, h]

/-- Witness for C5: in an environment where every read fails, the
example indirect CALL block dereferences exactly its `Target` and
emits nothing. -/
theorem C5_witness :
    (scanBlock cfgEx2 envNone bEx2).2 = [bEx2.Target] ∧
    (scanBlock cfgEx2 envNone bEx2).1 = none :=
  ⟨(C5_indirect_single_dereference cfgEx2 envNone bEx2 rfl rfl).1,
   (C5_indirect_single_dereference cfgEx2 envNone bEx2 rfl rfl).2.1 rfl⟩

/-- C6: every candidate emitted by the control-flow scan has its start
address (the resolved destination) within the overall analysis bounds
of the pass — `ValidateAddress` is checked against the pass bounds,
not the shard's. -/
theorem C6_scan_destinations_within_overall_bounds (cfg : PassConfig) (env : Env)
    (bs : List BasicBlock) (f : FunctionDef)
    (h : f ∈ controlFlowScan cfg env bs) :
    ValidateAddress cfg f.VirtualStart = true := by
  unfold controlFlowScan at h
  rw [List.mem_filterMap] at h
  obtain ⟨b, _, hsome⟩ := h
  exact (scanBlock_fst_some hsome).1

/-- Witness for C6: the example-2 scan emits `(0x4000, 0x4000)`, whose
start is within the pass bounds `[0x1000, 0x5000)`. -/
theorem C6_witness :
    fEx2 ∈ controlFlowScan cfgEx2 envEx2 blocksEx2 ∧
    ValidateAddress cfgEx2 fEx2.VirtualStart = true := by
  have h : fEx2 ∈ controlFlowScan cfgEx2 envEx2 blocksEx2 := by decide
  exact ⟨h, C6_scan_destinations_within_overall_bounds cfgEx2 envEx2 blocksEx2 fEx2 h⟩

/-- C7: the CLAIMED (`BASIC_BLOCK_FLAG_FUNCTION`) flag is monotone over
a discovery run: a block that carries the flag before `Analyse` still
carries it afterwards — the only flag operation anywhere in the run is
the `SetFlag` of boundary resolution. -/
theorem C7_claimed_flag_monotone (cfg : PassConfig) (env : Env) (hint : Nat)
    (blocks : List BasicBlock) (i : Nat) (h : claimedAt blocks i) :
    claimedAt (analyse cfg env hint blocks).blocks i :=
  claimedAt_runShards cfg env _ _ _ 0 blocks i h

/-- Witness for C7: a pre-claimed block stays claimed through a run. -/
theorem C7_witness :
    claimedAt blocksEx7 0 ∧ claimedAt (analyse cfgEx7 envNone 1 blocksEx7).blocks 0 := by
  have h : claimedAt blocksEx7 0 := ⟨⟨0, 0x10, 0, false, false, true⟩, rfl, rfl⟩
  exact ⟨h, C7_claimed_flag_monotone cfgEx7 envNone 1 blocksEx7 0 h⟩

/-- C8: `Analyse` returns success on every input, and with an empty
metadata table the prepass contributes no candidate for any shard, so
discovery proceeds on the control-flow scan alone; no failure
(unavailable context, transient access, resolution miss) propagates
out of the call. -/
theorem C8_analyse_always_succeeds (cfg : PassConfig) (env : Env) (hint : Nat)
    (blocks : List BasicBlock) :
    (analyse cfg env hint blocks).success = true ∧
    (cfg.functionInfo = [] → ∀ (bs : List BasicBlock) (s e : Nat),
      findFunctionWorkerPrepass cfg bs s e = []) := by
  refine ⟨rfl, ?_⟩
  intro h bs s e
  simp [findFunctionWorkerPrepass, h]

/-- Witness for C8: the metadata-free example-2 pass succeeds and its
prepass is empty. -/
theorem C8_witness :
    (analyse cfgEx2 envNone 3 blocksEx2).success = true ∧
    findFunctionWorkerPrepass cfgEx2 blocksEx2 0 1 = [] :=
  ⟨(C8_analyse_always_succeeds cfgEx2 envNone 3 blocksEx2).1,
   (C8_analyse_always_succeeds cfgEx2 envNone 3 blocksEx2).2 rfl blocksEx2 0 1⟩

/-- C9: with `T ≥ 1` shards over `N` blocks, the two block indices the
prepass dereferences for every shard (`Start` and `End - 1`) are all in
bounds exactly when `ceil(N/T) * (T - 1) < N`, which is also exactly
when every shard is non-empty; e.g. `N = 4, T = 3` (shard 2 starts at
index 4) and `N = 0` violate it. -/
theorem C9_prepass_inbounds_iff_all_shards_nonempty (N T : Nat) (hT : 1 ≤ T) :
    ((∀ i, i < T → prepassAccessInBounds (workAmount N T) N i) ↔
      workAmount N T * (T - 1) < N) ∧
    ((∀ i, i < T → shardNonempty (workAmount N T) N i) ↔
      workAmount N T * (T - 1) < N) := by
  have key : ∀ i, i < T → workAmount N T * i ≤ workAmount N T * (T - 1) := by
    intro i hi
    exact Nat.mul_le_mul (Nat.le_refl _) (by omega)
  constructor
  · constructor
    · intro h
      have h1 := h (T - 1) (by omega)
      unfold prepassAccessInBounds shardStart at h1
      exact h1.1
    · intro h i hi
      have hk := key i hi
      simp only [prepassAccessInBounds, shardStop, shardStart]
      constructor
      · omega
      · omega
  · constructor
    · intro h
      have h1 := h (T - 1) (by omega)
      simp only [shardNonempty, shardStop, shardStart] at h1
      omega
    · intro h i hi
      have hk := key i hi
      have hw : 1 ≤ workAmount N T := by
        unfold workAmount
        rw [Nat.one_le_div_iff (by omega)]
        omega
      simp only [shardNonempty, shardStop, shardStart]
      omega

/-- Witness for C9: at the claim's own example `N = 4, T = 3` the
equivalence holds and the precondition fails, so some prepass access is
out of bounds. -/
theorem C9_witness :
    1 ≤ 3 ∧ ¬ (workAmount 4 3 * (3 - 1) < 4) ∧
    ((∀ i, i < 3 → prepassAccessInBounds (workAmount 4 3) 4 i) ↔
      workAmount 4 3 * (3 - 1) < 4) :=
  ⟨by decide, by decide, (C9_prepass_inbounds_iff_all_shards_nonempty 4 3 (by decide)).1⟩

/-- C10: the prepass filters records by their begin address only — a
record whose begin `0x1008` lies inside the shard window
`[0x1000, 0x1010)` but whose end `0x999000` lies outside the shard and
outside the overall analysis bounds still yields a candidate carrying
that out-of-bounds `VirtualEnd`, and it is committed to the function
table (as the closed interval ending at `0x998FFF`). -/
theorem C10_prepass_filters_by_begin_only :
    (analyse cfgEx10 envNone 1 blocksEx10).funcs = [⟨0x1008, 0x999000, 0, 0⟩] ∧
    (analyse cfgEx10 envNone 1 blocksEx10).committed = [(0x1008, 0x998FFF, true)] ∧
    ValidateAddress cfgEx10 0x999000 = false ∧
    ValidateAddress cfgEx10 0x998FFF = false := by
  decide

end FunctionPass
